import Mathlib

/-!
# Verification of the MMA training-tracker scoring/leveling/badge engine

Shallow Lean embedding of the pure client logic of `mma-tracker`
(`app/page.tsx`, `lib/hooks/useSessionMigration.ts`), with theorems checking
the natural-language specification against it.

Modelling conventions:
* JavaScript numbers are modelled as exact rationals (`ℚ`); all the constants
  involved (multipliers 1.0/1.5/2.0/1.3, half-point bonuses, integer
  thresholds) make the claims precision-robust, and double overflow/rounding
  at magnitudes ≥ 2^53 is idealized away (exact arithmetic, unbounded range).
* A `Date` holding a UTC-midnight instant is represented by its epoch-day
  number (the instant divided by 86 400 000 ms).  `1970-01-01T00:00:00Z` is
  day 0, a Thursday.
* A session's `date` string `"YYYY-MM-DD"` is represented after
  `split("-").map(Number)` as the integer triple `YMD`; `Date.UTC`'s
  normalization of out-of-range month/day fields is modelled faithfully
  (proleptic Gregorian calendar, `daysFromCivil`).
* Strings manipulated character-wise (`normalizeDateToISO`) are modelled as
  `List Char`; the host `Date` parser is modelled by the ECMAScript
  Date Time String Format (implementation-specific lenient fallbacks of
  particular engines are not modelled).
-/

namespace MMA

/-- JavaScript `x || d` for an optional string: `null`/`undefined` and the
empty string are falsy. -/
def jsOrStr (x : Option String) (d : String) : String :=
  match x with
  | none => d
  | some s => if s = "" then d else s

/-- JavaScript `x || d` for an optional number: `null`/`undefined` and `0`
are falsy. -/
def jsOrQ (x : Option ℚ) (d : ℚ) : ℚ :=
  match x with
  | none => d
  | some v => if v = 0 then d else v

/-- JavaScript `Math.round`: rounds half-way cases toward `+∞`. -/
def jsRound (q : ℚ) : ℤ := ⌊q + 1/2⌋

/-! ## Dates (`parseDateUTC` and the week window, page.tsx lines 413-450) -/

/-- A date after `dateString.split("-").map(Number)`: integer year, month
(1-based as written in the string) and day. -/
structure YMD where
  year : Int
  month : Int
  day : Int
deriving Repr, DecidableEq

/-- Day count from 1970-01-01 of the proleptic Gregorian date `(y, m, d)`
with `m ∈ [1,12]` and an arbitrary (possibly out-of-range) day, per the
standard civil-from-days algorithm.  This is ECMAScript `MakeDay` up to the
86 400 000 ms/day factor. -/
def daysFromCivil (y m d : Int) : Int :=
  let y' := if m ≤ 2 then y - 1 else y
  let era := y'.ediv 400
  let yoe := y' - era * 400
  let mp := (m + 9).emod 12
  let doy := (153 * mp + 2).ediv 5 + d - 1
  let doe := yoe * 365 + yoe.ediv 4 - yoe.ediv 100 + doy
  era * 146097 + doe - 719468

/-- ECMAScript `Date.UTC(year, monthIndex, day)` (0-based month index, with
out-of-range fields normalized), as an epoch-day number. -/
def jsDateUTC (year monthIndex day : Int) : Int :=
  let t := year * 12 + monthIndex
  daysFromCivil (t.ediv 12) (t.emod 12 + 1) day

/-- `parseDateUTC` (page.tsx 413-416): `new Date(Date.UTC(year, month - 1, day))`
from the split date string, as an epoch-day number. -/
def parseDateUTC (d : YMD) : Int :=
  jsDateUTC d.year (d.month - 1) d.day

/-- `getUTCDay()` of a UTC-midnight instant: day of week, Sunday = 0
(epoch day 0 was a Thursday). -/
def getUTCDayOfWeek (t : Int) : Int := (t + 4) % 7

/-- The week start computed in `calculateWeeklyDiversityBonus`
(page.tsx 426-431): `Date.UTC(d.getUTCFullYear(), d.getUTCMonth(),
d.getUTCDate() - d.getUTCDay())`.  Decrementing the day-of-month field by
`k` shifts the instant by exactly `k` days (`Date.UTC` normalizes
out-of-range day values), so on epoch days this is `t - t.getUTCDay()`.
The subsequent `setUTCHours(0,0,0,0)` is a no-op on a midnight instant. -/
def weekStartOf (t : Int) : Int := t - getUTCDayOfWeek t

/-! ## Sessions and scoring (page.tsx lines 55-74 and 418-459) -/

/-- A row of the `sessions` table as used by the scoring functions
(`lib/supabase.ts`, `interface DbSession`); the identifier and timestamp
columns play no role in the computations modelled here. -/
structure DbSession where
  user_id : String
  group_id : String
  date : YMD
  type : String
  level : String
  points : ℚ
deriving Repr, DecidableEq

/-- `CLASS_LEVEL_MULTIPLIERS` (page.tsx 69-74), a `Record<string, number>`. -/
def CLASS_LEVEL_MULTIPLIERS (classLevel : String) : Option ℚ :=
  if classLevel = "Basic" then some 1
  else if classLevel = "Intermediate" then some (3/2)
  else if classLevel = "Advanced" then some 2
  else if classLevel = "All Level" then some (13/10)
  else none

/-- The `weekSessions` list built inside `calculateWeeklyDiversityBonus`
(page.tsx 436-442): the existing sessions whose date lies in
`[weekStart, weekEnd)`, followed by the new session. -/
def weekSessionsOf (existingSessions : List DbSession) (newSession : DbSession) :
    List DbSession :=
  let sessionDate := parseDateUTC newSession.date
  let weekStart := weekStartOf sessionDate
  let weekEnd := weekStart + 7
  existingSessions.filter (fun s =>
    let sDate := parseDateUTC s.date
    decide (weekStart ≤ sDate ∧ sDate < weekEnd)) ++ [newSession]

/-- `calculateWeeklyDiversityBonus` (page.tsx 421-450). -/
def calculateWeeklyDiversityBonus (existingSessions : List DbSession)
    (newSession : DbSession) : ℚ :=
  let uniqueTypeCount :=
    ((weekSessionsOf existingSessions newSession).map (fun s => s.type)).dedup.length
  if uniqueTypeCount ≤ 1 then 0
  else
    let extraTypes := uniqueTypeCount - 1
    min ((extraTypes : ℚ) * (1/2)) (3/2)

/-- `calculateSessionPoints` (page.tsx 455-459):
`basePoints * (CLASS_LEVEL_MULTIPLIERS[classLevel] || 1.0) + diversityBonus`. -/
def calculateSessionPoints (classLevel : String) (diversityBonus : ℚ) : ℚ :=
  let basePoints : ℚ := 1
  let multiplier := jsOrQ (CLASS_LEVEL_MULTIPLIERS classLevel) 1
  basePoints * multiplier + diversityBonus

/-! ## Leveling (page.tsx lines 58-66 and 369-390) -/

/-- `AVATAR_LEVELS` (page.tsx 58). -/
inductive AvatarLevel where
  | Novice
  | Intermediate
  | Seasoned
  | Elite
deriving Repr, DecidableEq

/-- The position of a level in the progression order
Novice < Intermediate < Seasoned < Elite. -/
def levelRank : AvatarLevel → Nat
  | .Novice => 0
  | .Intermediate => 1
  | .Seasoned => 2
  | .Elite => 3

/-- One entry of `LEVEL_THRESHOLDS`; `max = none` models `Infinity`. -/
structure LevelThreshold where
  min : ℚ
  max : Option ℚ
deriving Repr, DecidableEq

/-- `LEVEL_THRESHOLDS` (page.tsx 61-66). -/
def LEVEL_THRESHOLDS : AvatarLevel → LevelThreshold
  | .Novice => ⟨0, some 7⟩
  | .Intermediate => ⟨8, some 15⟩
  | .Seasoned => ⟨16, some 24⟩
  | .Elite => ⟨25, none⟩

/-- `calculateLevelFromPoints` (page.tsx 369-374). -/
def calculateLevelFromPoints (points : ℚ) : AvatarLevel :=
  if points ≥ (LEVEL_THRESHOLDS .Elite).min then .Elite
  else if points ≥ (LEVEL_THRESHOLDS .Seasoned).min then .Seasoned
  else if points ≥ (LEVEL_THRESHOLDS .Intermediate).min then .Intermediate
  else .Novice

/-- `calculateProgressInLevel` (page.tsx 379-390).  The source guard is
`range === Infinity || level === "Elite"`; `Elite` is the only level whose
`max` is `Infinity`, so the two disjuncts select the same branch, modelled
by matching on `threshold.max`. -/
def calculateProgressInLevel (points : ℚ) (level : AvatarLevel) : ℚ :=
  let threshold := LEVEL_THRESHOLDS level
  match threshold.max with
  | none => if points ≥ threshold.min then 100 else 0
  | some mx =>
    let range := mx - threshold.min
    let pointsInLevel := max 0 (points - threshold.min)
    let rawProgress := min 100 (pointsInLevel / range * 100)
    (jsRound (rawProgress / 25) : ℚ) * 25

/-! ## Badges (page.tsx lines 475-514) -/

/-- The `typeCounts` record built in `calculateBadgesFromSessions`
(page.tsx 479-483): number of sessions of the given type, with
`typeCounts[t] || 0` semantics for absent keys. -/
def typeCountOf (allSessions : List DbSession) (t : String) : Nat :=
  (allSessions.filter (fun s => decide (s.type = t))).length

/-- `strikingTypes` (page.tsx 494). -/
def strikingTypes : List String := ["Boxing", "Muay Thai", "K1", "MMA"]

/-- `grapplingTypes` (page.tsx 495). -/
def grapplingTypes : List String := ["BJJ", "Wrestling", "Judo", "Takedowns"]

/-- `strikingCount` (page.tsx 497): `strikingTypes.reduce((sum, type) =>
sum + (typeCounts[type] || 0), 0)`. -/
def strikingCount (allSessions : List DbSession) : Nat :=
  strikingTypes.foldl (fun sum t => sum + typeCountOf allSessions t) 0

/-- `grapplingCount` (page.tsx 498). -/
def grapplingCount (allSessions : List DbSession) : Nat :=
  grapplingTypes.foldl (fun sum t => sum + typeCountOf allSessions t) 0

/-- `calculateBadgesFromSessions` (page.tsx 475-514); `badges.push`
appends in the listed order. -/
def calculateBadgesFromSessions (allSessions : List DbSession) : List String :=
  let uniqueTypes := (allSessions.map (fun s => s.type)).dedup.length
  let totalSessions := allSessions.length
  (if 5 ≤ uniqueTypes ∧ 10 ≤ totalSessions then ["Most Balanced"] else [])
    ++ (if 5 ≤ strikingCount allSessions ∧
          grapplingCount allSessions < strikingCount allSessions
        then ["Best Striker"] else [])
    ++ (if 5 ≤ grapplingCount allSessions ∧
          strikingCount allSessions < grapplingCount allSessions
        then ["Best Grappler"] else [])
    ++ (if 3 ≤ typeCountOf allSessions "Wrestling" then ["Best Wrestler"] else [])

/-! ## Session migration hook (`lib/hooks/useSessionMigration.ts`) -/

/-- `MigrationResult` (useSessionMigration.ts 8-12). -/
structure MigrationResult where
  success : Bool
  migratedCount : Nat
  errors : List String
deriving Repr, DecidableEq

/-- A record of the localStorage session array (`LocalSession` in
useSessionMigration.ts 51-57); `groupId`, `level`, `points` may be absent. -/
structure LocalSessionRec where
  groupId : Option String
  date : String
  type : String
  level : Option String
  points : Option ℚ
deriving Repr, DecidableEq

/-- A row of `sessionsToInsert` (useSessionMigration.ts 60-70). -/
structure SessionRow where
  user_id : String
  group_id : String
  date : String
  type : String
  level : String
  points : ℚ
deriving Repr, DecidableEq

/-- The transformation of one local record to the database format
(useSessionMigration.ts 60-70). -/
def toDbRow (userId : String) (s : LocalSessionRec) : SessionRow :=
  { user_id := userId
    group_id := jsOrStr s.groupId "global"
    date := s.date
    type := s.type
    level := jsOrStr s.level "Unknown"
    points := jsOrQ s.points 0 }

/-- Outcome of `JSON.parse` on the stored sessions string: a thrown
exception with its message, or the parsed array. -/
inductive ParseOutcome where
  | err (msg : String)
  | ok (sessions : List LocalSessionRec)
deriving Repr, DecidableEq

/-- The hook state visible to the component: the localStorage `migrated`
flag, the raw localStorage sessions entry (`none` when the key is absent,
otherwise its `JSON.parse` outcome), and the three React state cells. -/
structure HookState where
  migratedFlag : Bool
  localSessions : Option ParseOutcome
  migrationNeeded : Bool
  migrating : Bool
  migrationResult : Option MigrationResult
deriving Repr, DecidableEq

/-- Outcome of the awaited `supabase.from('sessions').upsert(...)` call:
the promise may reject (`throws`), resolve with an error object
(`errors`), or resolve successfully with `data` of the given length
(`none` models `data = null`). -/
inductive UpsertOutcome where
  | throws (msg : String)
  | errors (msg : String)
  | ok (dataLen : Option Nat)
deriving Repr, DecidableEq

/-- Result of one `migrate()` call: the state after it returns, and
whether the batch upsert was attempted at all. -/
structure MigrateOutput where
  state : HookState
  upsertAttempted : Bool
deriving Repr, DecidableEq

/-- `migrate` (useSessionMigration.ts 31-106).  `userId : Option String`
models `string | null`; the upsert outcome is an input of the model.
`setMigrating(true)` followed by the `finally` reset leaves `migrating`
false in every returned state. -/
def migrate (userId : Option String) (st : HookState) (upsert : UpsertOutcome) :
    MigrateOutput :=
  match userId with
  | none => { state := st, upsertAttempted := false }
  | some uid =>
    if uid = "" ∨ st.migrating then { state := st, upsertAttempted := false }
    else
      match st.localSessions with
      | none =>
        { state := { st with
            migrationResult := some ⟨true, 0, []⟩
            migratedFlag := true
            migrationNeeded := false
            migrating := false }
          upsertAttempted := false }
      | some (.err e) =>
        { state := { st with
            migrationResult := some ⟨false, 0, [e]⟩
            migrating := false }
          upsertAttempted := false }
      | some (.ok localSessions) =>
        let sessionsToInsert := localSessions.map (toDbRow uid)
        match upsert with
        | .throws msg =>
          { state := { st with
              migrationResult := some ⟨false, 0, [msg]⟩
              migrating := false }
            upsertAttempted := true }
        | .errors msg =>
          { state := { st with
              migrationResult := some ⟨false, 0, [msg]⟩
              migrating := false }
            upsertAttempted := true }
        | .ok dataLen =>
          let migratedCount :=
            match dataLen with
            | some n => if n = 0 then sessionsToInsert.length else n
            | none => sessionsToInsert.length
          { state := { st with
              migratedFlag := true
              migrationNeeded := false
              migrationResult := some ⟨true, migratedCount, []⟩
              migrating := false }
            upsertAttempted := true }

/-- `dismiss` (useSessionMigration.ts 108-111): set the flag and clear
the banner; no upsert is performed. -/
def dismiss (st : HookState) : MigrateOutput :=
  { state := { st with migratedFlag := true, migrationNeeded := false }
    upsertAttempted := false }

/-! ## Leaderboard overlay (`sortedMembers`, page.tsx lines 1387-1427) -/

/-- `MemberRanking` (page.tsx 31-37). -/
structure MemberRanking where
  userId : String
  name : String
  score : ℚ
  badges : List String
  isCurrentUser : Bool
deriving Repr, DecidableEq

/-- The first `updatedMembers` binding of `sortedMembers`
(page.tsx 1391-1402): the current user's cached row is overridden with the
locally derived score, badges and display name. -/
def updatedMembersOf (groupMembers : List MemberRanking) (userId : String)
    (currentUserScore : ℚ) (currentUserBadges : List String)
    (username : Option String) : List MemberRanking :=
  groupMembers.map (fun member =>
    if member.userId = userId then
      { member with
        score := currentUserScore
        badges := currentUserBadges
        isCurrentUser := true
        name := jsOrStr username "You" }
    else member)

/-- The edge-case push of `sortedMembers` (page.tsx 1404-1414): append a
fresh row for the current user when the cache has none (and `userId` is
truthy). -/
def withCurrentUserRow (groupMembers : List MemberRanking) (userId : String)
    (currentUserScore : ℚ) (currentUserBadges : List String)
    (username : Option String) : List MemberRanking :=
  let updatedMembers :=
    updatedMembersOf groupMembers userId currentUserScore currentUserBadges username
  let userExists := updatedMembers.any (fun m => decide (m.userId = userId))
  if ¬ userExists ∧ userId ≠ "" then
    updatedMembers ++
      [{ userId := userId
         name := jsOrStr username "You"
         score := currentUserScore
         badges := currentUserBadges
         isCurrentUser := true }]
  else updatedMembers

/-- The `filteredMembers` binding of `sortedMembers` (page.tsx 1416-1423):
keep the current user's row and any row with a valid name. -/
def filteredMembersOf (groupMembers : List MemberRanking) (userId : String)
    (currentUserScore : ℚ) (currentUserBadges : List String)
    (username : Option String) : List MemberRanking :=
  (withCurrentUserRow groupMembers userId currentUserScore currentUserBadges
      username).filter (fun member =>
    member.isCurrentUser ||
      decide (member.name ≠ "" ∧ member.name ≠ "Anonymous Fighter"))

/-- `sortedMembers` (page.tsx 1387-1427): override, push the edge-case
row, filter anonymous rows, and sort by score descending
(`(a, b) => b.score - a.score`; the stable `insertionSort` models the
engine's stable sort). -/
def sortedMembers (groupMembers : List MemberRanking) (userId : String)
    (currentUserScore : ℚ) (currentUserBadges : List String)
    (username : Option String) : List MemberRanking :=
  (filteredMembersOf groupMembers userId currentUserScore currentUserBadges
      username).insertionSort (fun a b => b.score ≤ a.score)

/-! ## Date normalization (`normalizeDateToISO`, page.tsx lines 395-411)

Strings are handled character-wise here, so they are modelled as `List Char`.
-/

/-- JavaScript `String.prototype.split("-")` on a character list:
`"" → [""]`, separators at the ends produce empty segments. -/
def jsSplitOnDash : List Char → List (List Char)
  | [] => [[]]
  | c :: rest =>
    match jsSplitOnDash rest with
    | [] => [[c]]
    | g :: gs => if c = '-' then [] :: g :: gs else (c :: g) :: gs

/-- Decimal digit test on the code point (`'0'` is 48, `'9'` is 57). -/
def isDigitChar (c : Char) : Bool := 48 ≤ c.toNat && c.toNat ≤ 57

/-- The numeric value of a digit character. -/
def digToNat (c : Char) : Nat := c.toNat - 48

/-- The character of a digit value below 10. -/
def digCh (k : Nat) : Char := Char.ofNat (48 + k)

/-- Read exactly `k` leading digit characters, folding up their value
decimally onto `acc`; fails if fewer than `k` digits lead the list. -/
def readDigitsAux : Nat → Nat → List Char → Option (Nat × List Char)
  | 0, acc, s => some (acc, s)
  | k + 1, acc, s =>
    match s with
    | [] => none
    | c :: rest =>
      if isDigitChar c then readDigitsAux k (acc * 10 + digToNat c) rest else none

/-- Read exactly `k` leading digit characters as a decimal number. -/
def readDigits (k : Nat) (s : List Char) : Option (Nat × List Char) :=
  readDigitsAux k 0 s

/-- Proleptic-Gregorian leap-year test. -/
def isLeapYear (y : Int) : Bool :=
  (y.emod 4 = 0 ∧ y.emod 100 ≠ 0) ∨ y.emod 400 = 0

/-- Number of days in month `m` (1-based) of year `y`. -/
def daysInMonth (y : Int) (m : Nat) : Nat :=
  if m = 2 then (if isLeapYear y then 29 else 28)
  else if m = 4 ∨ m = 6 ∨ m = 9 ∨ m = 11 then 30
  else 31

/-- Accept the parsed components when the month and day are in range, as
the ECMAScript Date Time String Format requires (out-of-bounds values make
the string an invalid instance of the format, hence `NaN`). -/
def checkMD (y : Int) (m d : Nat) : Option (Int × Nat × Nat) :=
  if 1 ≤ m ∧ m ≤ 12 ∧ 1 ≤ d ∧ d ≤ daysInMonth y m then some (y, m, d) else none

/-- Parse the `-MM` / `-MM-DD` tail of a date-only string (absent parts
default to month 1 and day 1). -/
def parseMDTail (y : Int) (s : List Char) : Option (Int × Nat × Nat) :=
  if s = [] then checkMD y 1 1
  else if s.head? = some '-' then
    match readDigits 2 s.tail with
    | none => none
    | some (m, rest2) =>
      if rest2 = [] then checkMD y m 1
      else if rest2.head? = some '-' then
        match readDigits 2 rest2.tail with
        | none => none
        | some (d, rest4) => if rest4 = [] then checkMD y m d else none
      else none
  else none

/-- The host parse `new Date(dateString + "T00:00:00Z")` of the
`normalizeDateToISO` fallback branch, modelled by the ECMAScript Date Time
String Format: with the fixed valid time suffix appended, the string
parses iff `dateString` is a date-only form `YYYY`, `YYYY-MM`,
`YYYY-MM-DD` or the expanded-year forms `±YYYYYY[-MM[-DD]]` (with
`-000000` excluded), with in-range month and day.  For such a valid
calendar date the instant's `getUTCFullYear/Month/Date` are the parsed
components themselves, so the model returns them directly. -/
def jsParseDateZ (s : List Char) : Option (Int × Nat × Nat) :=
  if s.head? = some '+' then
    match readDigits 6 s.tail with
    | none => none
    | some (n, rest) => parseMDTail (n : Int) rest
  else if s.head? = some '-' then
    match readDigits 6 s.tail with
    | none => none
    | some (n, rest) =>
      if n = 0 then none else parseMDTail (-(n : Int)) rest
  else
    match readDigits 4 s with
    | none => none
    | some (n, rest) => parseMDTail (n : Int) rest

/-- Decimal digits of `n`, most significant first (JavaScript
`String(n)` for a natural number). -/
def natToChars (n : Nat) : List Char :=
  if n < 10 then [digCh n]
  else natToChars (n / 10) ++ [digCh (n % 10)]
decreasing_by exact Nat.div_lt_self (by omega) (by omega)

/-- JavaScript `String(i)` for an integer. -/
def intToChars (i : Int) : List Char :=
  if i < 0 then '-' :: natToChars i.natAbs else natToChars i.natAbs

/-- JavaScript `.padStart(2, "0")`. -/
def padStart2 (s : List Char) : List Char :=
  List.replicate (2 - s.length) '0' ++ s

/-- The formatted result of the `normalizeDateToISO` fallback branch:
`yearStr + "-" + monthStr + "-" + dayStr` (page.tsx 404-407), with the
month and day zero-padded to two characters and the year unpadded. -/
def formatISO (y : Int) (m d : Nat) : List Char :=
  intToChars y ++ '-' :: padStart2 (natToChars m) ++ '-' :: padStart2 (natToChars d)

/-- `normalizeDateToISO` (page.tsx 395-411).  The destructuring
`const [year, month, day] = dateString.split("-")` takes the first three
segments; missing segments are `undefined`, which is falsy like the empty
string, so both are modelled by the `[]` default.  Nothing in the `try`
block can throw, so the `catch` fallback is dead code. -/
def normalizeDateToISO (dateString : List Char) : List Char :=
  if dateString = [] then []
  else
    let parts := jsSplitOnDash dateString
    let year := parts.getD 0 []
    let month := parts.getD 1 []
    let day := parts.getD 2 []
    if year ≠ [] ∧ month ≠ [] ∧ day ≠ [] ∧
        year.length = 4 ∧ month.length = 2 ∧ day.length = 2 then
      dateString
    else
      match jsParseDateZ dateString with
      | none => dateString
      | some (y, m, d) => formatISO y m d

/-! ## Theorems -/

/-- The diversity bonus is never negative. -/
lemma weeklyDiversityBonus_nonneg (es : List DbSession) (ns : DbSession) :
    0 ≤ calculateWeeklyDiversityBonus es ns := by
  unfold calculateWeeklyDiversityBonus
  dsimp only
  split
  · exact le_refl 0
  · exact le_min (by positivity) (by norm_num)

/-- C2: for every class-level string `c` and every diversity bonus `b`
produced by `calculateWeeklyDiversityBonus`, `calculateSessionPoints c b`
equals `m * 1.0 + b` with `m` the multiplier 1.0/1.5/2.0/1.3 for
Basic/Intermediate/Advanced/All Level and 1.0 for any unknown level, and
the result is strictly positive. -/
theorem sessionPoints_formula (c : String) (b : ℚ) (es : List DbSession)
    (ns : DbSession) (hb : b = calculateWeeklyDiversityBonus es ns) :
    calculateSessionPoints c b =
      (if c = "Basic" then (1 : ℚ)
       else if c = "Intermediate" then 3/2
       else if c = "Advanced" then 2
       else if c = "All Level" then 13/10
       else 1) * 1 + b ∧
    0 < calculateSessionPoints c b := by
  have hb0 : 0 ≤ b := hb ▸ weeklyDiversityBonus_nonneg es ns
  unfold calculateSessionPoints jsOrQ CLASS_LEVEL_MULTIPLIERS
  split_ifs <;> simp <;> linarith

/-- Witness for `sessionPoints_formula` at `c = "Advanced"`, `b` the bonus
of a single session (which is 0). -/
theorem sessionPoints_formula_witness :
    calculateSessionPoints "Advanced"
        (calculateWeeklyDiversityBonus [] ⟨"u", "g", ⟨2024, 1, 9⟩, "Boxing", "Basic", 1⟩) =
      (if "Advanced" = "Basic" then (1 : ℚ)
       else if "Advanced" = "Intermediate" then 3/2
       else if "Advanced" = "Advanced" then 2
       else if "Advanced" = "All Level" then 13/10
       else 1) * 1 +
        calculateWeeklyDiversityBonus [] ⟨"u", "g", ⟨2024, 1, 9⟩, "Boxing", "Basic", 1⟩ ∧
    0 < calculateSessionPoints "Advanced"
        (calculateWeeklyDiversityBonus [] ⟨"u", "g", ⟨2024, 1, 9⟩, "Boxing", "Basic", 1⟩) :=
  sessionPoints_formula "Advanced" _ [] ⟨"u", "g", ⟨2024, 1, 9⟩, "Boxing", "Basic", 1⟩ rfl

/-- C3: `calculateLevelFromPoints` is non-decreasing in the point total,
its thresholds are inclusive minimums giving Novice on `[0,8)`,
Intermediate on `[8,16)`, Seasoned on `[16,25)` and Elite on `[25,∞)`,
and the boundary values 8, 16, 25 map to Intermediate, Seasoned, Elite. -/
theorem levelFromPoints_monotone_thresholds :
    (∀ p q : ℚ, p ≤ q →
      levelRank (calculateLevelFromPoints p) ≤ levelRank (calculateLevelFromPoints q)) ∧
    (∀ p : ℚ, 0 ≤ p → p < 8 → calculateLevelFromPoints p = .Novice) ∧
    (∀ p : ℚ, 8 ≤ p → p < 16 → calculateLevelFromPoints p = .Intermediate) ∧
    (∀ p : ℚ, 16 ≤ p → p < 25 → calculateLevelFromPoints p = .Seasoned) ∧
    (∀ p : ℚ, 25 ≤ p → calculateLevelFromPoints p = .Elite) ∧
    calculateLevelFromPoints 8 = .Intermediate ∧
    calculateLevelFromPoints 16 = .Seasoned ∧
    calculateLevelFromPoints 25 = .Elite := by
  have hstep : ∀ p q : ℚ, p ≤ q →
      levelRank (calculateLevelFromPoints p) ≤ levelRank (calculateLevelFromPoints q) := by
    intro p q hpq
    simp only [calculateLevelFromPoints, LEVEL_THRESHOLDS]
    split_ifs <;> simp [levelRank] <;> linarith
  refine ⟨hstep, ?_, ?_, ?_, ?_, ?_, ?_, ?_⟩
  · intro p h1 h2
    simp only [calculateLevelFromPoints, LEVEL_THRESHOLDS]
    split_ifs <;> first | rfl | linarith
  · intro p h1 h2
    simp only [calculateLevelFromPoints, LEVEL_THRESHOLDS]
    split_ifs <;> first | rfl | linarith
  · intro p h1 h2
    simp only [calculateLevelFromPoints, LEVEL_THRESHOLDS]
    split_ifs <;> first | rfl | linarith
  · intro p h1
    simp only [calculateLevelFromPoints, LEVEL_THRESHOLDS]
    split_ifs <;> first | rfl | linarith
  · simp only [calculateLevelFromPoints, LEVEL_THRESHOLDS]
    norm_num
  · simp only [calculateLevelFromPoints, LEVEL_THRESHOLDS]
    norm_num
  · simp only [calculateLevelFromPoints, LEVEL_THRESHOLDS]
    norm_num

/-- Witness for `levelFromPoints_monotone_thresholds`: monotonicity at
`3 ≤ 20` and the interval clauses at concrete points. -/
theorem levelFromPoints_monotone_thresholds_witness :
    levelRank (calculateLevelFromPoints 3) ≤ levelRank (calculateLevelFromPoints 20) ∧
    calculateLevelFromPoints 3 = .Novice ∧
    calculateLevelFromPoints 12 = .Intermediate ∧
    calculateLevelFromPoints 20 = .Seasoned ∧
    calculateLevelFromPoints 30 = .Elite :=
  ⟨levelFromPoints_monotone_thresholds.1 3 20 (by norm_num),
   levelFromPoints_monotone_thresholds.2.1 3 (by norm_num) (by norm_num),
   levelFromPoints_monotone_thresholds.2.2.1 12 (by norm_num) (by norm_num),
   levelFromPoints_monotone_thresholds.2.2.2.1 20 (by norm_num) (by norm_num),
   levelFromPoints_monotone_thresholds.2.2.2.2.1 30 (by norm_num)⟩

/-- Characterization of the Elite level. -/
lemma level_eq_elite_iff (p : ℚ) : calculateLevelFromPoints p = .Elite ↔ 25 ≤ p := by
  simp only [calculateLevelFromPoints, LEVEL_THRESHOLDS]
  split_ifs with h1 h2 h3 <;> simp <;> linarith

/-- `jsRound` is monotone. -/
lemma jsRound_mono {a b : ℚ} (h : a ≤ b) : jsRound a ≤ jsRound b :=
  Int.floor_le_floor (by linarith)

/-- A quantized progress value `25 * round(raw / 25)` with `raw ∈ [0, 100]`
lies in `{0, 25, 50, 75, 100}`. -/
lemma quantized_mem (raw : ℚ) (h0 : 0 ≤ raw) (h100 : raw ≤ 100) :
    (jsRound (raw / 25) : ℚ) * 25 = 0 ∨ (jsRound (raw / 25) : ℚ) * 25 = 25 ∨
    (jsRound (raw / 25) : ℚ) * 25 = 50 ∨ (jsRound (raw / 25) : ℚ) * 25 = 75 ∨
    (jsRound (raw / 25) : ℚ) * 25 = 100 := by
  have hlo : (0 : ℤ) ≤ jsRound (raw / 25) := by
    rw [jsRound, Int.le_floor]
    push_cast
    linarith
  have hhi : jsRound (raw / 25) ≤ 4 := by
    have h5 : jsRound (raw / 25) < 5 := by
      rw [jsRound, Int.floor_lt]
      push_cast
      linarith
    omega
  set k := jsRound (raw / 25) with hk
  interval_cases k <;> norm_num

/-- The bounded-level progress expression lies in `{0, 25, 50, 75, 100}`. -/
lemma progress_bounded_mem (p mn mx : ℚ) (hlt : mn < mx) :
    ((jsRound (min 100 (max 0 (p - mn) / (mx - mn) * 100) / 25) : ℚ) * 25 = 0 ∨
     (jsRound (min 100 (max 0 (p - mn) / (mx - mn) * 100) / 25) : ℚ) * 25 = 25 ∨
     (jsRound (min 100 (max 0 (p - mn) / (mx - mn) * 100) / 25) : ℚ) * 25 = 50 ∨
     (jsRound (min 100 (max 0 (p - mn) / (mx - mn) * 100) / 25) : ℚ) * 25 = 75 ∨
     (jsRound (min 100 (max 0 (p - mn) / (mx - mn) * 100) / 25) : ℚ) * 25 = 100) := by
  apply quantized_mem
  · have hd : (0 : ℚ) < mx - mn := by linarith
    have hnum : (0 : ℚ) ≤ max 0 (p - mn) := le_max_left _ _
    have h1 : (0 : ℚ) ≤ max 0 (p - mn) / (mx - mn) * 100 := by positivity
    exact le_min (by norm_num) h1
  · exact min_le_left _ _

/-- The bounded-level progress expression is monotone in the point total. -/
lemma progress_bounded_mono (p q mn mx : ℚ) (hlt : mn < mx) (hpq : p ≤ q) :
    (jsRound (min 100 (max 0 (p - mn) / (mx - mn) * 100) / 25) : ℚ) * 25 ≤
    (jsRound (min 100 (max 0 (q - mn) / (mx - mn) * 100) / 25) : ℚ) * 25 := by
  have hd : (0 : ℚ) < mx - mn := by linarith
  have hmax : max 0 (p - mn) ≤ max 0 (q - mn) := max_le_max le_rfl (by linarith)
  have hraw : min 100 (max 0 (p - mn) / (mx - mn) * 100) ≤
      min 100 (max 0 (q - mn) / (mx - mn) * 100) := by
    apply min_le_min le_rfl
    gcongr
  have hfl : jsRound (min 100 (max 0 (p - mn) / (mx - mn) * 100) / 25) ≤
      jsRound (min 100 (max 0 (q - mn) / (mx - mn) * 100) / 25) :=
    jsRound_mono (by linarith)
  have hfl' : ((jsRound (min 100 (max 0 (p - mn) / (mx - mn) * 100) / 25) : ℤ) : ℚ) ≤
      ((jsRound (min 100 (max 0 (q - mn) / (mx - mn) * 100) / 25) : ℤ) : ℚ) := by
    exact_mod_cast hfl
  nlinarith

/-- C4: for every non-negative point total `p` with
`L = calculateLevelFromPoints p`, `calculateProgressInLevel p L` lies in
`{0, 25, 50, 75, 100}`, is non-decreasing in `p` for points mapping to the
same level, and equals 100 whenever `L` is Elite; a cumulative total of
exactly 8 points yields level Intermediate with progress 0. -/
theorem progressInLevel_props :
    (∀ p : ℚ, 0 ≤ p →
      (calculateProgressInLevel p (calculateLevelFromPoints p) = 0 ∨
       calculateProgressInLevel p (calculateLevelFromPoints p) = 25 ∨
       calculateProgressInLevel p (calculateLevelFromPoints p) = 50 ∨
       calculateProgressInLevel p (calculateLevelFromPoints p) = 75 ∨
       calculateProgressInLevel p (calculateLevelFromPoints p) = 100)) ∧
    (∀ p q : ℚ, 0 ≤ p → p ≤ q →
      calculateLevelFromPoints p = calculateLevelFromPoints q →
      calculateProgressInLevel p (calculateLevelFromPoints p) ≤
        calculateProgressInLevel q (calculateLevelFromPoints q)) ∧
    (∀ p : ℚ, 0 ≤ p → calculateLevelFromPoints p = .Elite →
      calculateProgressInLevel p (calculateLevelFromPoints p) = 100) ∧
    (calculateLevelFromPoints 8 = .Intermediate ∧
      calculateProgressInLevel 8 .Intermediate = 0) := by
  have hmem : ∀ (p : ℚ) (L : AvatarLevel),
      calculateProgressInLevel p L = 0 ∨ calculateProgressInLevel p L = 25 ∨
      calculateProgressInLevel p L = 50 ∨ calculateProgressInLevel p L = 75 ∨
      calculateProgressInLevel p L = 100 := by
    intro p L
    cases L with
    | Novice =>
      simp only [calculateProgressInLevel, LEVEL_THRESHOLDS]
      exact progress_bounded_mem p 0 7 (by norm_num)
    | Intermediate =>
      simp only [calculateProgressInLevel, LEVEL_THRESHOLDS]
      exact progress_bounded_mem p 8 15 (by norm_num)
    | Seasoned =>
      simp only [calculateProgressInLevel, LEVEL_THRESHOLDS]
      exact progress_bounded_mem p 16 24 (by norm_num)
    | Elite =>
      simp only [calculateProgressInLevel, LEVEL_THRESHOLDS]
      split_ifs <;> simp
  refine ⟨fun p _ => hmem p _, ?_, ?_, ?_, ?_⟩
  · intro p q hp hpq hlev
    cases hq : calculateLevelFromPoints q with
    | Novice =>
      rw [hlev, hq]
      simp only [calculateProgressInLevel, LEVEL_THRESHOLDS]
      exact progress_bounded_mono p q 0 7 (by norm_num) hpq
    | Intermediate =>
      rw [hlev, hq]
      simp only [calculateProgressInLevel, LEVEL_THRESHOLDS]
      exact progress_bounded_mono p q 8 15 (by norm_num) hpq
    | Seasoned =>
      rw [hlev, hq]
      simp only [calculateProgressInLevel, LEVEL_THRESHOLDS]
      exact progress_bounded_mono p q 16 24 (by norm_num) hpq
    | Elite =>
      have hp25 : (25 : ℚ) ≤ p := (level_eq_elite_iff p).mp (hlev.trans hq)
      have hq25 : (25 : ℚ) ≤ q := (level_eq_elite_iff q).mp hq
      rw [hlev, hq]
      simp only [calculateProgressInLevel, LEVEL_THRESHOLDS]
      rw [if_pos (by exact hp25), if_pos (by exact hq25)]
  · intro p _ hL
    rw [hL]
    have hp25 : (25 : ℚ) ≤ p := (level_eq_elite_iff p).mp hL
    simp only [calculateProgressInLevel, LEVEL_THRESHOLDS]
    rw [if_pos (by exact hp25)]
  · simp only [calculateLevelFromPoints, LEVEL_THRESHOLDS]
    norm_num
  · simp only [calculateProgressInLevel, LEVEL_THRESHOLDS, jsRound]
    norm_num

/-- Witness for `progressInLevel_props` at concrete totals. -/
theorem progressInLevel_props_witness :
    (calculateProgressInLevel 12 (calculateLevelFromPoints 12) = 0 ∨
     calculateProgressInLevel 12 (calculateLevelFromPoints 12) = 25 ∨
     calculateProgressInLevel 12 (calculateLevelFromPoints 12) = 50 ∨
     calculateProgressInLevel 12 (calculateLevelFromPoints 12) = 75 ∨
     calculateProgressInLevel 12 (calculateLevelFromPoints 12) = 100) ∧
    calculateProgressInLevel 9 (calculateLevelFromPoints 9) ≤
      calculateProgressInLevel 12 (calculateLevelFromPoints 12) ∧
    calculateProgressInLevel 30 (calculateLevelFromPoints 30) = 100 :=
  ⟨progressInLevel_props.1 12 (by norm_num),
   progressInLevel_props.2.1 9 12 (by norm_num) (by norm_num) (by decide),
   progressInLevel_props.2.2.1 30 (by norm_num) (by decide)⟩

/-- Every instant lies in the half-open week window computed from it. -/
lemma self_mem_weekWindow (t : Int) : weekStartOf t ≤ t ∧ t < weekStartOf t + 7 := by
  unfold weekStartOf getUTCDayOfWeek
  omega

/-- C1: the weekly diversity bonus is 0 when at most one distinct session
type occurs among the sessions (existing plus the new one) dated inside
the new session's week window, and `min((u - 1) * 0.5, 1.5)` otherwise;
in particular 0.5 for two distinct types, 1.0 for three, and the 1.5 cap
from four onward. -/
theorem weeklyDiversityBonus_formula (es : List DbSession) (ns : DbSession) :
    ∀ u, u = (((es ++ [ns]).filter (fun s =>
        decide (weekStartOf (parseDateUTC ns.date) ≤ parseDateUTC s.date ∧
          parseDateUTC s.date < weekStartOf (parseDateUTC ns.date) + 7))).map
            (fun s => s.type)).dedup.length →
      (u ≤ 1 → calculateWeeklyDiversityBonus es ns = 0) ∧
      (2 ≤ u → calculateWeeklyDiversityBonus es ns = min (((u : ℚ) - 1) * (1/2)) (3/2)) ∧
      (u = 2 → calculateWeeklyDiversityBonus es ns = 1/2) ∧
      (u = 3 → calculateWeeklyDiversityBonus es ns = 1) ∧
      (4 ≤ u → calculateWeeklyDiversityBonus es ns = 3/2) := by
  intro u hu
  have hself := self_mem_weekWindow (parseDateUTC ns.date)
  have hns : decide (weekStartOf (parseDateUTC ns.date) ≤ parseDateUTC ns.date ∧
      parseDateUTC ns.date < weekStartOf (parseDateUTC ns.date) + 7) = true := by
    simpa using hself
  have hweek : weekSessionsOf es ns = (es ++ [ns]).filter (fun s =>
      decide (weekStartOf (parseDateUTC ns.date) ≤ parseDateUTC s.date ∧
        parseDateUTC s.date < weekStartOf (parseDateUTC ns.date) + 7)) := by
    unfold weekSessionsOf
    dsimp only
    rw [List.filter_append, List.filter_singleton]
    simp only [hns, cond_true]
  have hbonus : calculateWeeklyDiversityBonus es ns =
      if u ≤ 1 then 0 else min (((u - 1 : Nat) : ℚ) * (1/2)) (3/2) := by
    unfold calculateWeeklyDiversityBonus
    rw [hweek, ← hu]
  refine ⟨?_, ?_, ?_, ?_, ?_⟩
  · intro h
    rw [hbonus, if_pos h]
  · intro h
    rw [hbonus, if_neg (by omega)]
    congr 1
    push_cast [Nat.cast_sub (by omega : 1 ≤ u)]
    ring_nf
  · intro h
    subst h
    rw [hbonus]
    norm_num
  · intro h
    subst h
    rw [hbonus]
    norm_num
  · intro h
    rw [hbonus, if_neg (by omega)]
    have h1 : (3 : ℚ) ≤ ((u - 1 : Nat) : ℚ) := by
      have : (3 : Nat) ≤ u - 1 := by omega
      exact_mod_cast this
    rw [min_eq_right (by linarith)]

/-- Witness for `weeklyDiversityBonus_formula`: two distinct types in the
same week give bonus 0.5. -/
theorem weeklyDiversityBonus_formula_witness :
    calculateWeeklyDiversityBonus
        [⟨"u", "g", ⟨2024, 1, 8⟩, "BJJ", "Basic", 1⟩]
        ⟨"u", "g", ⟨2024, 1, 9⟩, "Boxing", "Basic", 1⟩ = 1/2 :=
  ((weeklyDiversityBonus_formula
      [⟨"u", "g", ⟨2024, 1, 8⟩, "BJJ", "Basic", 1⟩]
      ⟨"u", "g", ⟨2024, 1, 9⟩, "Boxing", "Basic", 1⟩) 2 (by decide)).2.2.1 rfl

/-- C6: the week window is the half-open interval of seven days starting
at the Sunday (00:00 UTC) of the new session's date: the window start is
a Sunday, the new session's date lies in the window, an existing session
is counted among the `weekSessions` iff its date lies in the window, and
a new session dated on a Sunday starts its own week. -/
theorem weekWindow_sunday_halfOpen (es : List DbSession) (ns : DbSession) :
    getUTCDayOfWeek (weekStartOf (parseDateUTC ns.date)) = 0 ∧
    (weekStartOf (parseDateUTC ns.date) ≤ parseDateUTC ns.date ∧
      parseDateUTC ns.date < weekStartOf (parseDateUTC ns.date) + 7) ∧
    (∀ s ∈ es, (s ∈ weekSessionsOf es ns ↔
      (weekStartOf (parseDateUTC ns.date) ≤ parseDateUTC s.date ∧
        parseDateUTC s.date < weekStartOf (parseDateUTC ns.date) + 7))) ∧
    (getUTCDayOfWeek (parseDateUTC ns.date) = 0 →
      weekStartOf (parseDateUTC ns.date) = parseDateUTC ns.date) := by
  refine ⟨?_, self_mem_weekWindow _, ?_, ?_⟩
  · unfold weekStartOf getUTCDayOfWeek
    omega
  · intro s hs
    unfold weekSessionsOf
    constructor
    · intro hmem
      rcases List.mem_append.mp hmem with hf | hn
      · have := List.of_mem_filter hf
        simpa using this
      · have hsn : s = ns := by simpa using hn
        subst hsn
        exact self_mem_weekWindow _
    · intro hwin
      exact List.mem_append.mpr (Or.inl (List.mem_filter.mpr ⟨hs, by simpa using hwin⟩))
  · intro h
    unfold weekStartOf
    omega

/-- Witness for `weekWindow_sunday_halfOpen`: a Monday session is counted
in the window of a Tuesday session of the same week, and a Sunday new
session starts its own week. -/
theorem weekWindow_sunday_halfOpen_witness :
    (⟨"u", "g", ⟨2024, 1, 8⟩, "BJJ", "Basic", 1⟩ ∈
      weekSessionsOf [⟨"u", "g", ⟨2024, 1, 8⟩, "BJJ", "Basic", 1⟩]
        ⟨"u", "g", ⟨2024, 1, 9⟩, "Boxing", "Basic", 1⟩ ↔
      (weekStartOf (parseDateUTC ⟨2024, 1, 9⟩) ≤ parseDateUTC ⟨2024, 1, 8⟩ ∧
        parseDateUTC ⟨2024, 1, 8⟩ < weekStartOf (parseDateUTC ⟨2024, 1, 9⟩) + 7)) ∧
    weekStartOf (parseDateUTC ⟨2024, 1, 7⟩) = parseDateUTC ⟨2024, 1, 7⟩ :=
  ⟨(weekWindow_sunday_halfOpen [⟨"u", "g", ⟨2024, 1, 8⟩, "BJJ", "Basic", 1⟩]
      ⟨"u", "g", ⟨2024, 1, 9⟩, "Boxing", "Basic", 1⟩).2.2.1
      ⟨"u", "g", ⟨2024, 1, 8⟩, "BJJ", "Basic", 1⟩ (by decide),
   (weekWindow_sunday_halfOpen ([] : List DbSession)
      ⟨"u", "g", ⟨2024, 1, 7⟩, "Boxing", "Basic", 1⟩).2.2.2 (by decide)⟩

/-- The striking reduce-sum counts exactly the sessions whose type is a
striking type. -/
lemma strikingCount_eq_filter (l : List DbSession) :
    strikingCount l =
      (l.filter (fun s => decide (s.type ∈ strikingTypes))).length := by
  simp only [strikingCount, strikingTypes, List.foldl, typeCountOf,
    ← List.countP_eq_length_filter]
  induction l with
  | nil => rfl
  | cons s t ih =>
    simp only [List.countP_cons, strikingTypes]
    by_cases h1 : s.type = "Boxing" <;>
      by_cases h2 : s.type = "Muay Thai" <;>
        by_cases h3 : s.type = "K1" <;>
          by_cases h4 : s.type = "MMA" <;>
            simp_all [List.mem_cons] <;> omega

/-- The grappling reduce-sum counts exactly the sessions whose type is a
grappling type. -/
lemma grapplingCount_eq_filter (l : List DbSession) :
    grapplingCount l =
      (l.filter (fun s => decide (s.type ∈ grapplingTypes))).length := by
  simp only [grapplingCount, grapplingTypes, List.foldl, typeCountOf,
    ← List.countP_eq_length_filter]
  induction l with
  | nil => rfl
  | cons s t ih =>
    simp only [List.countP_cons, grapplingTypes]
    by_cases h1 : s.type = "BJJ" <;>
      by_cases h2 : s.type = "Wrestling" <;>
        by_cases h3 : s.type = "Judo" <;>
          by_cases h4 : s.type = "Takedowns" <;>
            simp_all [List.mem_cons] <;> omega

/-- C5: "Best Striker" is awarded exactly when the striking-session count
is at least 5 and strictly exceeds the grappling-session count,
"Best Grappler" exactly in the symmetric case, and a tie awards neither. -/
theorem badges_striker_grappler (l : List DbSession) :
    ∀ striking grappling,
      striking = (l.filter (fun s => decide (s.type ∈ strikingTypes))).length →
      grappling = (l.filter (fun s => decide (s.type ∈ grapplingTypes))).length →
      (("Best Striker" ∈ calculateBadgesFromSessions l ↔
          5 ≤ striking ∧ grappling < striking) ∧
       ("Best Grappler" ∈ calculateBadgesFromSessions l ↔
          5 ≤ grappling ∧ striking < grappling) ∧
       (striking = grappling →
          "Best Striker" ∉ calculateBadgesFromSessions l ∧
          "Best Grappler" ∉ calculateBadgesFromSessions l)) := by
  intro striking grappling hs hg
  rw [← strikingCount_eq_filter] at hs
  rw [← grapplingCount_eq_filter] at hg
  subst hs hg
  unfold calculateBadgesFromSessions
  dsimp only
  refine ⟨?_, ?_, ?_⟩
  · split_ifs <;> simp_all <;> omega
  · split_ifs <;> simp_all <;> omega
  · intro heq
    split_ifs <;> simp_all <;> omega

/-- Session list used by the badge witness: five Boxing sessions and one
BJJ session. -/
def strikerWitnessSessions : List DbSession :=
  List.replicate 5 ⟨"u", "g", ⟨2024, 1, 9⟩, "Boxing", "Basic", 1⟩ ++
    [⟨"u", "g", ⟨2024, 1, 9⟩, "BJJ", "Basic", 1⟩]

/-- Witness for `badges_striker_grappler`: five boxing sessions and one
BJJ session award "Best Striker" exactly per the count condition. -/
theorem badges_striker_grappler_witness :
    "Best Striker" ∈ calculateBadgesFromSessions strikerWitnessSessions ↔
      5 ≤ (strikerWitnessSessions.filter
          (fun s => decide (s.type ∈ strikingTypes))).length ∧
        (strikerWitnessSessions.filter
          (fun s => decide (s.type ∈ grapplingTypes))).length <
          (strikerWitnessSessions.filter
            (fun s => decide (s.type ∈ strikingTypes))).length :=
  (badges_striker_grappler strikerWitnessSessions _ _ rfl rfl).1

/-- C8: `migrate()` sets the local migrated flag and clears
`migrationNeeded` only when the batch upsert succeeds or there is nothing
to migrate; on an upsert error, a rejected upsert promise or a
`JSON.parse` exception it reports `success = false` with a non-empty
error list and leaves the flag as it was (so a failed migration is
retried on the next load); `dismiss()` sets the flag without attempting
any upsert. -/
theorem migrate_flag_discipline (uid : String) (st : HookState)
    (up : UpsertOutcome) (msg : String) (l : List LocalSessionRec) :
    (st.migratedFlag = false →
      (migrate (some uid) st up).state.migratedFlag = true →
      st.localSessions = none ∨
        ∃ sessions dataLen, st.localSessions = some (.ok sessions) ∧
          up = .ok dataLen) ∧
    (st.migrationNeeded = true →
      (migrate (some uid) st up).state.migrationNeeded = false →
      st.localSessions = none ∨
        ∃ sessions dataLen, st.localSessions = some (.ok sessions) ∧
          up = .ok dataLen) ∧
    (uid ≠ "" → st.migrating = false → st.localSessions = some (.ok l) →
      up = .errors msg →
      (migrate (some uid) st up).state.migratedFlag = st.migratedFlag ∧
      (migrate (some uid) st up).state.migrationResult =
        some ⟨false, 0, [msg]⟩) ∧
    (uid ≠ "" → st.migrating = false → st.localSessions = some (.ok l) →
      up = .throws msg →
      (migrate (some uid) st up).state.migratedFlag = st.migratedFlag ∧
      (migrate (some uid) st up).state.migrationResult =
        some ⟨false, 0, [msg]⟩) ∧
    (uid ≠ "" → st.migrating = false → st.localSessions = some (.err msg) →
      (migrate (some uid) st up).state.migratedFlag = st.migratedFlag ∧
      (migrate (some uid) st up).state.migrationResult =
        some ⟨false, 0, [msg]⟩) ∧
    ((dismiss st).state.migratedFlag = true ∧
      (dismiss st).state.migrationNeeded = false ∧
      (dismiss st).upsertAttempted = false) := by
  unfold migrate dismiss
  dsimp only
  refine ⟨?_, ?_, ?_, ?_, ?_, by simp⟩
  · intro hflag hset
    by_cases hguard : uid = "" ∨ st.migrating = true
    · rw [if_pos hguard] at hset
      simp [hflag] at hset
    · rw [if_neg hguard] at hset
      rcases hls : st.localSessions with _ | po
      · exact Or.inl rfl
      · rw [hls] at hset
        rcases po with e | sessions
        · simp [hflag] at hset
        · rcases hupo : up with m | m | dl
          · rw [hupo] at hset
            simp [hflag] at hset
          · rw [hupo] at hset
            simp [hflag] at hset
          · exact Or.inr ⟨sessions, dl, rfl, rfl⟩
  · intro hneed hset
    by_cases hguard : uid = "" ∨ st.migrating = true
    · rw [if_pos hguard] at hset
      simp [hneed] at hset
    · rw [if_neg hguard] at hset
      rcases hls : st.localSessions with _ | po
      · exact Or.inl rfl
      · rw [hls] at hset
        rcases po with e | sessions
        · simp [hneed] at hset
        · rcases hupo : up with m | m | dl
          · rw [hupo] at hset
            simp [hneed] at hset
          · rw [hupo] at hset
            simp [hneed] at hset
          · exact Or.inr ⟨sessions, dl, rfl, rfl⟩
  · intro hu hm hls hupo
    rw [hls, hupo, if_neg (by simp [hu, hm])]
    exact ⟨rfl, rfl⟩
  · intro hu hm hls hupo
    rw [hls, hupo, if_neg (by simp [hu, hm])]
    exact ⟨rfl, rfl⟩
  · intro hu hm hls
    rw [hls, if_neg (by simp [hu, hm])]
    exact ⟨rfl, rfl⟩

/-- Witness for `migrate_flag_discipline`: a failing upsert on a
one-session store leaves the flag clear and reports the error. -/
theorem migrate_flag_discipline_witness :
    (migrate (some "user-1")
        ⟨false, some (.ok [⟨none, "2024-01-09", "Boxing", none, none⟩]),
          true, false, none⟩
        (.errors "db down")).state.migratedFlag =
      (⟨false, some (.ok [⟨none, "2024-01-09", "Boxing", none, none⟩]),
          true, false, none⟩ : HookState).migratedFlag ∧
    (migrate (some "user-1")
        ⟨false, some (.ok [⟨none, "2024-01-09", "Boxing", none, none⟩]),
          true, false, none⟩
        (.errors "db down")).state.migrationResult =
      some ⟨false, 0, ["db down"]⟩ :=
  (migrate_flag_discipline "user-1"
      ⟨false, some (.ok [⟨none, "2024-01-09", "Boxing", none, none⟩]),
        true, false, none⟩
      (.errors "db down") "db down"
      [⟨none, "2024-01-09", "Boxing", none, none⟩]).2.2.1
    (by decide) rfl rfl rfl

/-- The locally derived row shown for the current user: local display
name, locally computed score and badges. -/
def localOverrideRow (userId : String) (currentUserScore : ℚ)
    (currentUserBadges : List String) (username : Option String) :
    MemberRanking :=
  { userId := userId
    name := jsOrStr username "You"
    score := currentUserScore
    badges := currentUserBadges
    isCurrentUser := true }

/-- Overriding preserves each row's `userId`, so the number of rows of the
current user is unchanged. -/
lemma countP_updatedMembersOf (cache : List MemberRanking) (uid : String)
    (score : ℚ) (badges : List String) (username : Option String) :
    (updatedMembersOf cache uid score badges username).countP
        (fun m => decide (m.userId = uid)) =
      cache.countP (fun m => decide (m.userId = uid)) := by
  unfold updatedMembersOf
  rw [List.countP_map]
  apply List.countP_congr
  intro a _
  by_cases h : a.userId = uid <;> simp [Function.comp, h]

/-- Any row of the current user surviving to the push stage is the locally
derived row. -/
lemma mem_updatedMembersOf_eq {cache : List MemberRanking} {uid : String}
    {score : ℚ} {badges : List String} {username : Option String}
    {x : MemberRanking}
    (hx : x ∈ updatedMembersOf cache uid score badges username)
    (hxid : x.userId = uid) :
    x = localOverrideRow uid score badges username := by
  unfold updatedMembersOf at hx
  rcases List.mem_map.mp hx with ⟨y, _, rfl⟩
  by_cases h : y.userId = uid
  · simp [if_pos h, localOverrideRow, h]
  · rw [if_neg h] at hxid
    exact absurd hxid h

/-- Any row of the current user after the push stage is the locally
derived row. -/
lemma mem_withCurrentUserRow_eq {cache : List MemberRanking} {uid : String}
    {score : ℚ} {badges : List String} {username : Option String}
    {x : MemberRanking}
    (hx : x ∈ withCurrentUserRow cache uid score badges username)
    (hxid : x.userId = uid) :
    x = localOverrideRow uid score badges username := by
  unfold withCurrentUserRow at hx
  dsimp only at hx
  split_ifs at hx with h
  · rcases List.mem_append.mp hx with hin | hnew
    · exact mem_updatedMembersOf_eq hin hxid
    · simpa [localOverrideRow] using hnew
  · exact mem_updatedMembersOf_eq hx hxid

/-- After the push stage there is exactly one row of the current user,
provided the id is nonempty and the cache held at most one. -/
lemma countP_withCurrentUserRow (cache : List MemberRanking) (uid : String)
    (score : ℚ) (badges : List String) (username : Option String)
    (huid : uid ≠ "")
    (hdup : cache.countP (fun m => decide (m.userId = uid)) ≤ 1) :
    (withCurrentUserRow cache uid score badges username).countP
        (fun m => decide (m.userId = uid)) = 1 := by
  unfold withCurrentUserRow
  dsimp only
  have hcount := countP_updatedMembersOf cache uid score badges username
  by_cases hex : (updatedMembersOf cache uid score badges username).any
      (fun m => decide (m.userId = uid)) = true
  · rw [if_neg (by simp [hex])]
    have hpos : 0 < (updatedMembersOf cache uid score badges username).countP
        (fun m => decide (m.userId = uid)) := by
      rcases List.any_eq_true.mp hex with ⟨a, ha, hpa⟩
      exact List.countP_pos_iff.mpr ⟨a, ha, by simpa using hpa⟩
    omega
  · have hzero : (updatedMembersOf cache uid score badges username).countP
        (fun m => decide (m.userId = uid)) = 0 := by
      rw [List.countP_eq_zero]
      intro a ha hpa
      exact hex (List.any_eq_true.mpr ⟨a, ha, hpa⟩)
    rw [if_pos ⟨by simp [hex], huid⟩, List.countP_append, hzero]
    simp

/-- After the anonymous-row filter there is still exactly one row of the
current user. -/
lemma countP_filteredMembersOf (cache : List MemberRanking) (uid : String)
    (score : ℚ) (badges : List String) (username : Option String)
    (huid : uid ≠ "")
    (hdup : cache.countP (fun m => decide (m.userId = uid)) ≤ 1) :
    (filteredMembersOf cache uid score badges username).countP
        (fun m => decide (m.userId = uid)) = 1 := by
  unfold filteredMembersOf
  rw [List.countP_filter]
  refine Eq.trans (List.countP_congr ?_)
    (countP_withCurrentUserRow cache uid score badges username huid hdup)
  intro a ha
  by_cases hpa : a.userId = uid
  · have := mem_withCurrentUserRow_eq ha hpa
    subst this
    simp [localOverrideRow]
  · simp [hpa]

/-- Amended C9: provided the current user's id is nonempty and the cached
list holds at most one row with that id (the `group_members` table keys
one row per user per group), the rendered ranking list has exactly one
row for the current user, that row carries the locally derived score,
badges and display name regardless of the cached values — including when
the cache has no such row — and the list is sorted by score in descending
order. -/
theorem sortedMembers_overlay (cache : List MemberRanking) (uid : String)
    (score : ℚ) (badges : List String) (username : Option String)
    (huid : uid ≠ "")
    (hdup : cache.countP (fun m => decide (m.userId = uid)) ≤ 1) :
    (sortedMembers cache uid score badges username).countP
        (fun m => decide (m.userId = uid)) = 1 ∧
    (∀ m ∈ sortedMembers cache uid score badges username, m.userId = uid →
      m = localOverrideRow uid score badges username) ∧
    (sortedMembers cache uid score badges username).Sorted
        (fun a b => b.score ≤ a.score) := by
  haveI : IsTotal MemberRanking (fun a b => b.score ≤ a.score) :=
    ⟨fun a b => le_total b.score a.score⟩
  haveI : IsTrans MemberRanking (fun a b => b.score ≤ a.score) :=
    ⟨fun a b c hab hbc => le_trans hbc hab⟩
  have hperm := List.perm_insertionSort
    (fun a b : MemberRanking => b.score ≤ a.score)
    (filteredMembersOf cache uid score badges username)
  refine ⟨?_, ?_, ?_⟩
  · rw [sortedMembers, hperm.countP_eq]
    exact countP_filteredMembersOf cache uid score badges username huid hdup
  · intro m hm hmid
    rw [sortedMembers] at hm
    have hm' := hperm.mem_iff.mp hm
    exact mem_withCurrentUserRow_eq (List.mem_filter.mp hm').1 hmid
  · exact List.sorted_insertionSort _ _

/-- Witness for `sortedMembers_overlay`: a cache holding a stale row for
the current user and one other member. -/
theorem sortedMembers_overlay_witness :
    (sortedMembers [⟨"u", "Old Me", 99, [], false⟩, ⟨"v", "Rival", 4, [], false⟩]
        "u" 3 ["Iron Chin"] (some "Me")).countP
          (fun m => decide (m.userId = "u")) = 1 ∧
    (∀ m ∈ sortedMembers [⟨"u", "Old Me", 99, [], false⟩, ⟨"v", "Rival", 4, [], false⟩]
        "u" 3 ["Iron Chin"] (some "Me"), m.userId = "u" →
      m = localOverrideRow "u" 3 ["Iron Chin"] (some "Me")) ∧
    (sortedMembers [⟨"u", "Old Me", 99, [], false⟩, ⟨"v", "Rival", 4, [], false⟩]
        "u" 3 ["Iron Chin"] (some "Me")).Sorted
        (fun a b => b.score ≤ a.score) :=
  sortedMembers_overlay [⟨"u", "Old Me", 99, [], false⟩, ⟨"v", "Rival", 4, [], false⟩]
    "u" 3 ["Iron Chin"] (some "Me") (by decide) (by decide)

/-- Counterexample to C9 as stated: a cached list with two rows bearing
the current user's id yields two rows for the current user after the
render-time overlay, not exactly one. -/
theorem sortedMembers_dup_counterexample :
    ¬ ((sortedMembers [⟨"u", "Alice", 5, [], false⟩, ⟨"u", "Bob", 7, [], false⟩]
        "u" 3 ["Iron Chin"] (some "Me")).countP
          (fun m => decide (m.userId = "u")) = 1) := by
  decide

/-- Inputs passing the segment-length check are returned unchanged. -/
lemma normalize_segments_passthrough (s : List Char)
    (h1 : ((jsSplitOnDash s).getD 0 []).length = 4)
    (h2 : ((jsSplitOnDash s).getD 1 []).length = 2)
    (h3 : ((jsSplitOnDash s).getD 2 []).length = 2) :
    normalizeDateToISO s = s := by
  have hne : s ≠ [] := by
    intro h
    subst h
    simp [jsSplitOnDash] at h1
  have hy : (jsSplitOnDash s).getD 0 [] ≠ [] := by
    intro h
    rw [h] at h1
    simp at h1
  have hm : (jsSplitOnDash s).getD 1 [] ≠ [] := by
    intro h
    rw [h] at h2
    simp at h2
  have hd : (jsSplitOnDash s).getD 2 [] ≠ [] := by
    intro h
    rw [h] at h3
    simp at h3
  unfold normalizeDateToISO
  rw [if_neg hne]
  dsimp only
  rw [if_pos ⟨hy, hm, hd, h1, h2, h3⟩]

/-- C10: any input whose split on "-" has a first segment of length 4 and
second and third segments of length 2 is returned unchanged by
`normalizeDateToISO` — the canonical-form check tests only segment
lengths, never that the segments are numeric or form a valid date. -/
theorem canonicalCheck_passthrough (s : List Char)
    (h1 : ((jsSplitOnDash s).getD 0 []).length = 4)
    (h2 : ((jsSplitOnDash s).getD 1 []).length = 2)
    (h3 : ((jsSplitOnDash s).getD 2 []).length = 2) :
    normalizeDateToISO s = s :=
  normalize_segments_passthrough s h1 h2 h3

/-- Witness for `canonicalCheck_passthrough`: the non-date string
"abcd-ef-gh" passes through unchanged. -/
theorem canonicalCheck_passthrough_witness :
    normalizeDateToISO "abcd-ef-gh".data = "abcd-ef-gh".data :=
  canonicalCheck_passthrough "abcd-ef-gh".data (by decide) (by decide) (by decide)

/-! ### Digit and decimal-string lemmas for the idempotence proof -/

lemma isDigitChar_digCh {k : Nat} (h : k < 10) : isDigitChar (digCh k) = true := by
  interval_cases k <;> decide

lemma digToNat_digCh {k : Nat} (h : k < 10) : digToNat (digCh k) = k := by
  interval_cases k <;> decide

lemma digCh_ne_dash {k : Nat} (h : k < 10) : digCh k ≠ '-' := by
  interval_cases k <;> decide

lemma isDigitChar_ne_dash {c : Char} (h : isDigitChar c = true) : c ≠ '-' := by
  intro he
  subst he
  simp [isDigitChar] at h

lemma isDigitChar_ne_plus {c : Char} (h : isDigitChar c = true) : c ≠ '+' := by
  intro he
  subst he
  simp [isDigitChar] at h

lemma digToNat_lt {c : Char} (h : isDigitChar c = true) : digToNat c < 10 := by
  simp only [isDigitChar, Bool.and_eq_true, decide_eq_true_eq] at h
  unfold digToNat
  omega

lemma natToChars_lt {n : Nat} (h : n < 10) : natToChars n = [digCh n] := by
  rw [natToChars, if_pos h]

lemma natToChars_ge {n : Nat} (h : 10 ≤ n) :
    natToChars n = natToChars (n / 10) ++ [digCh (n % 10)] := by
  rw [natToChars, if_neg (by omega)]

lemma natToChars_ne_nil (n : Nat) : natToChars n ≠ [] := by
  by_cases h : n < 10
  · rw [natToChars_lt h]
    simp
  · rw [natToChars_ge (by omega)]
    simp

lemma natToChars_all_digit (n : Nat) : ∀ c ∈ natToChars n, isDigitChar c = true := by
  induction n using Nat.strong_induction_on with
  | _ n ih =>
    by_cases h : n < 10
    · rw [natToChars_lt h]
      intro c hc
      rw [List.mem_singleton] at hc
      subst hc
      exact isDigitChar_digCh h
    · rw [natToChars_ge (by omega)]
      intro c hc
      rcases List.mem_append.mp hc with h1 | h2
      · exact ih (n / 10) (Nat.div_lt_self (by omega) (by omega)) c h1
      · rw [List.mem_singleton] at h2
        subst h2
        exact isDigitChar_digCh (Nat.mod_lt _ (by omega))

lemma natToChars_no_dash {n : Nat} {c : Char} (hc : c ∈ natToChars n) : c ≠ '-' :=
  isDigitChar_ne_dash (natToChars_all_digit n c hc)

lemma natToChars_length_eq (k : Nat) : ∀ n : Nat, 10 ^ k ≤ n → n < 10 ^ (k + 1) →
    (natToChars n).length = k + 1 := by
  induction k with
  | zero =>
    intro n h1 h2
    rw [natToChars_lt (by simpa using h2)]
    rfl
  | succ k ih =>
    intro n h1 h2
    have h10 : 10 ≤ n := le_trans (by
      calc (10 : Nat) = 10 ^ 1 := (pow_one 10).symm
      _ ≤ 10 ^ (k + 1) := Nat.pow_le_pow_right (by omega) (by omega)) h1
    rw [natToChars_ge h10, List.length_append]
    have hlo : 10 ^ k ≤ n / 10 := by
      rw [Nat.le_div_iff_mul_le (by omega)]
      calc 10 ^ k * 10 = 10 ^ (k + 1) := by rw [pow_succ]
      _ ≤ n := h1
    have hhi : n / 10 < 10 ^ (k + 1) := by
      rw [Nat.div_lt_iff_lt_mul (by omega)]
      calc n < 10 ^ (k + 2) := h2
      _ = 10 ^ (k + 1) * 10 := by rw [pow_succ]
    rw [ih (n / 10) hlo hhi]
    rfl

lemma natToChars_length_le (k : Nat) : ∀ n : Nat, 1 ≤ k → n < 10 ^ k →
    (natToChars n).length ≤ k := by
  induction k with
  | zero => omega
  | succ k ih =>
    intro n _ h2
    by_cases h : n < 10
    · rw [natToChars_lt h]
      simp
    · have hk : 1 ≤ k := by
        by_contra hk0
        have : k = 0 := by omega
        subst this
        simp at h2
        omega
      rw [natToChars_ge (by omega), List.length_append]
      have : n / 10 < 10 ^ k := by
        rw [Nat.div_lt_iff_lt_mul (by omega)]
        calc n < 10 ^ (k + 1) := h2
        _ = 10 ^ k * 10 := by rw [pow_succ]
      have := ih (n / 10) hk this
      simpa using by omega

/-- Reading back the decimal digits of `n` reconstructs `n` (with the
accumulator scaled by the digit count). -/
lemma foldl_natToChars (n : Nat) : ∀ acc : Nat,
    (natToChars n).foldl (fun a c => a * 10 + digToNat c) acc =
      acc * 10 ^ (natToChars n).length + n := by
  induction n using Nat.strong_induction_on with
  | _ n ih =>
    intro acc
    by_cases h : n < 10
    · rw [natToChars_lt h]
      simp [List.foldl, digToNat_digCh h]
    · rw [natToChars_ge (by omega), List.foldl_append, List.length_append]
      rw [ih (n / 10) (Nat.div_lt_self (by omega) (by omega)) acc]
      simp only [List.foldl, List.length_singleton]
      rw [digToNat_digCh (Nat.mod_lt _ (by omega))]
      have hsplit : n = n / 10 * 10 + n % 10 := by omega
      rw [pow_succ]
      ring_nf
      omega

/-- Reading `k` digits from an all-digit prefix of length at most `k`
consumes the prefix. -/
lemma readDigitsAux_append (l : List Char) (hdig : ∀ c ∈ l, isDigitChar c = true) :
    ∀ (k acc : Nat) (t : List Char), l.length ≤ k →
    readDigitsAux k acc (l ++ t) =
      readDigitsAux (k - l.length) (l.foldl (fun a c => a * 10 + digToNat c) acc) t := by
  induction l with
  | nil =>
    intro k acc t _
    simp [List.foldl]
  | cons c cs ih =>
    intro k acc t hlen
    rcases k with _ | k
    · simp at hlen
    · simp only [List.cons_append, readDigitsAux]
      rw [if_pos (hdig c (List.mem_cons_self c cs))]
      rw [ih (fun x hx => hdig x (List.mem_cons_of_mem c hx)) k _ t (by simpa using hlen)]
      simp [List.foldl]

/-- Reading exactly the digits of `n` returns `n` and the rest. -/
lemma readDigits_natToChars {n k : Nat} (hlen : (natToChars n).length = k)
    (t : List Char) : readDigits k (natToChars n ++ t) = some (n, t) := by
  unfold readDigits
  rw [readDigitsAux_append (natToChars n) (natToChars_all_digit n) k 0 t (by omega)]
  rw [hlen, Nat.sub_self, foldl_natToChars]
  norm_num [readDigitsAux]

/-- Reading `k` digits fails when only `j < k` digits precede a non-digit
(or the end of the string). -/
lemma readDigits_fail {l t : List Char} {k : Nat}
    (hdig : ∀ c ∈ l, isDigitChar c = true) (hlt : l.length < k)
    (hstop : t = [] ∨ ∃ c t', t = c :: t' ∧ isDigitChar c = false) :
    readDigits k (l ++ t) = none := by
  unfold readDigits
  rw [readDigitsAux_append l hdig k 0 t (by omega)]
  have hj : ∃ j, k - l.length = j + 1 := ⟨k - l.length - 1, by omega⟩
  rcases hj with ⟨j, hj⟩
  rw [hj]
  rcases hstop with rfl | ⟨c, t', rfl, hc⟩
  · rfl
  · simp only [readDigitsAux]
    rw [if_neg (by simp [hc])]

/-- Any value read from `k` digits is below `10 ^ k`. -/
lemma readDigitsAux_lt : ∀ (k acc : Nat) (s : List Char) (n : Nat) (t : List Char),
    readDigitsAux k acc s = some (n, t) → n < (acc + 1) * 10 ^ k := by
  intro k
  induction k with
  | zero =>
    intro acc s n t h
    simp only [readDigitsAux, Option.some.injEq, Prod.mk.injEq] at h
    omega
  | succ k ih =>
    intro acc s n t h
    rcases s with _ | ⟨c, rest⟩
    · simp [readDigitsAux] at h
    · simp only [readDigitsAux] at h
      by_cases hc : isDigitChar c = true
      · rw [if_pos hc] at h
        have hd := digToNat_lt hc
        have := ih (acc * 10 + digToNat c) rest n t h
        have hstep : (acc * 10 + digToNat c + 1) * 10 ^ k ≤ (acc + 1) * 10 ^ (k + 1) := by
          rw [pow_succ]
          have h1 : acc * 10 + digToNat c + 1 ≤ (acc + 1) * 10 := by omega
          calc (acc * 10 + digToNat c + 1) * 10 ^ k ≤ (acc + 1) * 10 * 10 ^ k :=
            Nat.mul_le_mul_right _ h1
          _ = (acc + 1) * (10 ^ k * 10) := by ring
        omega
      · rw [if_neg hc] at h
        cases h

/-- Any value read by `readDigits k` is below `10 ^ k`. -/
lemma readDigits_lt {k : Nat} {s : List Char} {n : Nat} {t : List Char}
    (h : readDigits k s = some (n, t)) : n < 10 ^ k := by
  have := readDigitsAux_lt k 0 s n t h
  simpa using this

/-! ### Split and format lemmas -/

lemma jsSplitOnDash_ne_nil (s : List Char) : jsSplitOnDash s ≠ [] := by
  cases s with
  | nil => simp [jsSplitOnDash]
  | cons c rest =>
    simp only [jsSplitOnDash]
    rcases h : jsSplitOnDash rest with _ | ⟨g, gs⟩
    · simp
    · split_ifs <;> simp

lemma jsSplitOnDash_no_dash {a : List Char} (h : ∀ c ∈ a, c ≠ '-') :
    jsSplitOnDash a = [a] := by
  induction a with
  | nil => rfl
  | cons c cs ih =>
    simp only [jsSplitOnDash]
    rw [ih (fun x hx => h x (List.mem_cons_of_mem c hx))]
    dsimp only
    rw [if_neg (h c (List.mem_cons_self c cs))]

lemma jsSplitOnDash_append_dash {a t : List Char} (h : ∀ c ∈ a, c ≠ '-') :
    jsSplitOnDash (a ++ '-' :: t) = a :: jsSplitOnDash t := by
  induction a with
  | nil =>
    simp only [List.nil_append, jsSplitOnDash]
    rcases ht : jsSplitOnDash t with _ | ⟨g, gs⟩
    · exact absurd ht (jsSplitOnDash_ne_nil t)
    · simp
  | cons c cs ih =>
    simp only [List.cons_append, jsSplitOnDash]
    rw [List.append_eq, ih (fun x hx => h x (List.mem_cons_of_mem c hx))]
    dsimp only
    rw [if_neg (h c (List.mem_cons_self c cs))]

lemma padStart2_spec (m : Nat) (h1 : 1 ≤ m) (h2 : m ≤ 99) :
    (padStart2 (natToChars m)).length = 2 ∧
    (∀ c ∈ padStart2 (natToChars m), isDigitChar c = true) ∧
    ∀ t, readDigits 2 (padStart2 (natToChars m) ++ t) = some (m, t) := by
  by_cases h : m < 10
  · have hn : natToChars m = [digCh m] := natToChars_lt h
    have hpad : padStart2 (natToChars m) = ['0', digCh m] := by
      rw [hn]
      rfl
    refine ⟨by rw [hpad]; rfl, ?_, ?_⟩
    · rw [hpad]
      intro c hc
      simp only [List.mem_cons, List.mem_singleton, List.not_mem_nil, or_false] at hc
      rcases hc with rfl | rfl
      · decide
      · exact isDigitChar_digCh h
    · intro t
      rw [hpad]
      simp only [readDigits, List.cons_append, readDigitsAux]
      rw [if_pos (by decide), if_pos (isDigitChar_digCh h)]
      rw [digToNat_digCh h]
      have h0 : digToNat '0' = 0 := by decide
      rw [h0]
      norm_num [readDigitsAux]
  · have hlen : (natToChars m).length = 2 := by
      have := natToChars_length_eq 1 m (by omega) (by omega)
      simpa using this
    have hpad : padStart2 (natToChars m) = natToChars m := by
      unfold padStart2
      rw [hlen]
      rfl
    refine ⟨by rw [hpad, hlen], ?_, ?_⟩
    · rw [hpad]
      exact natToChars_all_digit m
    · intro t
      rw [hpad]
      exact readDigits_natToChars hlen t

lemma checkMD_sound {y : Int} {m d : Nat} {y' : Int} {m' d' : Nat}
    (h : checkMD y m d = some (y', m', d')) :
    y' = y ∧ m' = m ∧ d' = d ∧ 1 ≤ m ∧ m ≤ 12 ∧ 1 ≤ d ∧ d ≤ daysInMonth y m := by
  unfold checkMD at h
  split_ifs at h with hcond
  · simp only [Option.some.injEq, Prod.mk.injEq] at h
    obtain ⟨hy, hm, hd⟩ := h
    exact ⟨hy.symm, hm.symm, hd.symm, hcond.1, hcond.2.1, hcond.2.2.1, hcond.2.2.2⟩

lemma parseMDTail_sound {y0 : Int} {s : List Char} {y : Int} {m d : Nat}
    (h : parseMDTail y0 s = some (y, m, d)) :
    y = y0 ∧ 1 ≤ m ∧ m ≤ 12 ∧ 1 ≤ d ∧ d ≤ daysInMonth y0 m := by
  unfold parseMDTail at h
  by_cases hs : s = []
  · rw [if_pos hs] at h
    obtain ⟨hy, hm, hd, r⟩ := checkMD_sound h
    subst hy hm hd
    exact ⟨rfl, r.1, r.2.1, r.2.2.1, r.2.2.2⟩
  · rw [if_neg hs] at h
    by_cases hh : s.head? = some '-'
    · rw [if_pos hh] at h
      rcases hr : readDigits 2 s.tail with _ | ⟨mm, rest2⟩
      · simp only [hr] at h
        exact Option.noConfusion h
      · simp only [hr] at h
        by_cases h2 : rest2 = []
        · rw [if_pos h2] at h
          obtain ⟨hy, hm, hd, r⟩ := checkMD_sound h
          subst hy hm hd
          exact ⟨rfl, r.1, r.2.1, r.2.2.1, r.2.2.2⟩
        · rw [if_neg h2] at h
          by_cases h3 : rest2.head? = some '-'
          · rw [if_pos h3] at h
            rcases hr2 : readDigits 2 rest2.tail with _ | ⟨dd, rest4⟩
            · simp only [hr2] at h
              exact Option.noConfusion h
            · simp only [hr2] at h
              by_cases h4 : rest4 = []
              · rw [if_pos h4] at h
                obtain ⟨hy, hm, hd, r⟩ := checkMD_sound h
                subst hy hm hd
                exact ⟨rfl, r.1, r.2.1, r.2.2.1, r.2.2.2⟩
              · rw [if_neg h4] at h
                cases h
          · rw [if_neg h3] at h
            cases h
    · rw [if_neg hh] at h
      cases h

/-- Soundness of the date-only parse: the components are a valid calendar
date and the year lies in the expanded-year range. -/
lemma jsParseDateZ_sound {s : List Char} {y : Int} {m d : Nat}
    (h : jsParseDateZ s = some (y, m, d)) :
    1 ≤ m ∧ m ≤ 12 ∧ 1 ≤ d ∧ d ≤ daysInMonth y m ∧
      -999999 ≤ y ∧ y ≤ 999999 := by
  unfold jsParseDateZ at h
  by_cases h1 : s.head? = some '+'
  · rw [if_pos h1] at h
    rcases hr : readDigits 6 s.tail with _ | ⟨n, rest⟩
    · simp only [hr] at h
      exact Option.noConfusion h
    · simp only [hr] at h
      have hn := readDigits_lt hr
      obtain ⟨hy, r⟩ := parseMDTail_sound h
      subst hy
      refine ⟨r.1, r.2.1, r.2.2.1, r.2.2.2, by omega, by
        have : (n : Int) < 10 ^ 6 := by exact_mod_cast hn
        omega⟩
  · rw [if_neg h1] at h
    by_cases h2 : s.head? = some '-'
    · rw [if_pos h2] at h
      rcases hr : readDigits 6 s.tail with _ | ⟨n, rest⟩
      · simp only [hr] at h
        exact Option.noConfusion h
      · simp only [hr] at h
        by_cases hn0 : n = 0
        · rw [if_pos hn0] at h
          cases h
        · rw [if_neg hn0] at h
          have hn := readDigits_lt hr
          obtain ⟨hy, r⟩ := parseMDTail_sound h
          subst hy
          refine ⟨r.1, r.2.1, r.2.2.1, r.2.2.2, by
            have : (n : Int) < 10 ^ 6 := by exact_mod_cast hn
            omega, by omega⟩
    · rw [if_neg h2] at h
      rcases hr : readDigits 4 s with _ | ⟨n, rest⟩
      · simp only [hr] at h
        exact Option.noConfusion h
      · simp only [hr] at h
        have hn := readDigits_lt hr
        obtain ⟨hy, r⟩ := parseMDTail_sound h
        subst hy
        refine ⟨r.1, r.2.1, r.2.2.1, r.2.2.2, by omega, by
          have : (n : Int) < 10 ^ 4 := by exact_mod_cast hn
          omega⟩

/-- A non-canonical, non-parseable input is returned unchanged. -/
lemma normalize_parse_none {s : List Char} (hs : s ≠ [])
    (hyear : ((jsSplitOnDash s).getD 0 []).length ≠ 4 ∨
      (jsSplitOnDash s).getD 0 [] = [])
    (hp : jsParseDateZ s = none) : normalizeDateToISO s = s := by
  unfold normalizeDateToISO
  rw [if_neg hs]
  dsimp only
  rw [if_neg (by
    rintro ⟨hy, _, _, h4, _, _⟩
    rcases hyear with h | h
    · exact h h4
    · exact hy h)]
  simp only [hp]

/-- A non-canonical input that parses is replaced by the formatted
components. -/
lemma normalize_parse_some {s : List Char} {y : Int} {m d : Nat}
    (hs : s ≠ [])
    (hyear : ((jsSplitOnDash s).getD 0 []).length ≠ 4 ∨
      (jsSplitOnDash s).getD 0 [] = [])
    (hp : jsParseDateZ s = some (y, m, d)) :
    normalizeDateToISO s = formatISO y m d := by
  unfold normalizeDateToISO
  rw [if_neg hs]
  dsimp only
  rw [if_neg (by
    rintro ⟨hy, _, _, h4, _, _⟩
    rcases hyear with h | h
    · exact h h4
    · exact hy h)]
  simp only [hp]

/-- `normalizeDateToISO` either returns its input or the formatting of a
successful parse. -/
lemma normalize_cases (s : List Char) :
    normalizeDateToISO s = s ∨
      ∃ y m d, jsParseDateZ s = some (y, m, d) ∧
        normalizeDateToISO s = formatISO y m d := by
  by_cases hs : s = []
  · subst hs
    left
    rfl
  · unfold normalizeDateToISO
    rw [if_neg hs]
    dsimp only
    split_ifs with hc
    · left
      rfl
    · rcases hp : jsParseDateZ s with _ | ⟨y, m, d⟩
      · left
        rfl
      · right
        exact ⟨y, m, d, rfl, rfl⟩

lemma daysInMonth_le (y : Int) (m : Nat) : daysInMonth y m ≤ 31 := by
  unfold daysInMonth
  split_ifs <;> omega

lemma jsSplitOnDash_cons_dash (t : List Char) :
    jsSplitOnDash ('-' :: t) = [] :: jsSplitOnDash t := by
  simp only [jsSplitOnDash]
  rcases h : jsSplitOnDash t with _ | ⟨g, gs⟩
  · exact absurd h (jsSplitOnDash_ne_nil t)
  · simp

lemma natToChars_length_ge (k : Nat) : ∀ n : Nat, 10 ^ k ≤ n →
    k + 1 ≤ (natToChars n).length := by
  induction k with
  | zero =>
    intro n _
    have := natToChars_ne_nil n
    cases h : natToChars n with
    | nil => exact absurd h this
    | cons c cs => simp
  | succ k ih =>
    intro n h1
    have h10 : 10 ≤ n := le_trans (by
      calc (10 : Nat) = 10 ^ 1 := (pow_one 10).symm
      _ ≤ 10 ^ (k + 1) := Nat.pow_le_pow_right (by omega) (by omega)) h1
    rw [natToChars_ge h10, List.length_append]
    have hlo : 10 ^ k ≤ n / 10 := by
      rw [Nat.le_div_iff_mul_le (by omega)]
      calc 10 ^ k * 10 = 10 ^ (k + 1) := by rw [pow_succ]
      _ ≤ n := h1
    have := ih (n / 10) hlo
    simpa using by omega

/-- No dash occurs in a zero-padded two-digit month/day segment. -/
lemma padStart2_no_dash {m : Nat} (h1 : 1 ≤ m) (h2 : m ≤ 99) :
    ∀ c ∈ padStart2 (natToChars m), c ≠ '-' := fun c hc =>
  isDigitChar_ne_dash ((padStart2_spec m h1 h2).2.1 c hc)

/-- The formatted date with the separators re-associated to expose the
leading year segment. -/
lemma formatISO_eq (y : Int) (m d : Nat) :
    formatISO y m d = intToChars y ++
      '-' :: (padStart2 (natToChars m) ++ '-' :: padStart2 (natToChars d)) := by
  unfold formatISO
  rw [List.append_assoc, List.cons_append]

/-- Splitting a formatted date with non-negative year yields its three
segments. -/
lemma split_formatISO_nonneg {y : Int} (hy : 0 ≤ y) {m d : Nat}
    (hm1 : 1 ≤ m) (hm2 : m ≤ 99) (hd1 : 1 ≤ d) (hd2 : d ≤ 99) :
    jsSplitOnDash (formatISO y m d) =
      [natToChars y.natAbs, padStart2 (natToChars m), padStart2 (natToChars d)] := by
  rw [formatISO_eq]
  unfold intToChars
  rw [if_neg (by omega)]
  rw [jsSplitOnDash_append_dash (fun c hc => natToChars_no_dash hc)]
  rw [jsSplitOnDash_append_dash (padStart2_no_dash hm1 hm2)]
  rw [jsSplitOnDash_no_dash (padStart2_no_dash hd1 hd2)]

/-- Splitting a formatted date with negative year yields an empty first
segment. -/
lemma split_formatISO_neg {y : Int} (hy : y < 0) {m d : Nat}
    (hm1 : 1 ≤ m) (hm2 : m ≤ 99) (hd1 : 1 ≤ d) (hd2 : d ≤ 99) :
    jsSplitOnDash (formatISO y m d) =
      [] :: [natToChars y.natAbs, padStart2 (natToChars m), padStart2 (natToChars d)] := by
  rw [formatISO_eq]
  unfold intToChars
  rw [if_pos hy]
  rw [List.cons_append, jsSplitOnDash_cons_dash]
  rw [jsSplitOnDash_append_dash (fun c hc => natToChars_no_dash hc)]
  rw [jsSplitOnDash_append_dash (padStart2_no_dash hm1 hm2)]
  rw [jsSplitOnDash_no_dash (padStart2_no_dash hd1 hd2)]

/-- A formatted date is never the empty string. -/
lemma formatISO_ne_nil (y : Int) (m d : Nat) : formatISO y m d ≠ [] := by
  rw [formatISO_eq]
  unfold intToChars
  split_ifs
  · simp
  · intro h
    rcases List.append_eq_nil.mp h with ⟨h1, _⟩
    exact natToChars_ne_nil _ h1

/-- Parsing a formatted date fails when the year prints at most three
digits (the digit run is too short for the four-digit year form). -/
lemma parse_formatISO_short {y : Int} (hy0 : 0 ≤ y) (hy : y ≤ 999) (m d : Nat) :
    jsParseDateZ (formatISO y m d) = none := by
  have hlen : (natToChars y.natAbs).length ≤ 3 := by
    apply natToChars_length_le 3 y.natAbs (by omega)
    have : y.natAbs ≤ 999 := by omega
    omega
  rcases hhd : natToChars y.natAbs with _ | ⟨c, cs⟩
  · exact absurd hhd (natToChars_ne_nil _)
  have hcdig : isDigitChar c = true :=
    natToChars_all_digit y.natAbs c (by rw [hhd]; exact List.mem_cons_self c cs)
  have hshape : formatISO y m d = c :: (cs ++
      '-' :: (padStart2 (natToChars m) ++ '-' :: padStart2 (natToChars d))) := by
    rw [formatISO_eq]
    unfold intToChars
    rw [if_neg (by omega), hhd, List.cons_append]
  unfold jsParseDateZ
  rw [hshape]
  rw [if_neg (by simpa using isDigitChar_ne_plus hcdig)]
  rw [if_neg (by simpa using isDigitChar_ne_dash hcdig)]
  rw [← List.cons_append, ← hhd]
  have hfail : readDigits 4 (natToChars y.natAbs ++
      '-' :: (padStart2 (natToChars m) ++ '-' :: padStart2 (natToChars d))) = none := by
    apply readDigits_fail (natToChars_all_digit _) (by omega)
    exact Or.inr ⟨'-', _, rfl, by decide⟩
  simp only [hfail]

/-- Parsing a formatted date fails when the year prints five or six
digits without a sign (the digit run after the four-digit year continues
with a digit where a separator or the end is required). -/
lemma parse_formatISO_long {y : Int} (hy0 : 10000 ≤ y) (hy : y ≤ 999999)
    (m d : Nat) : jsParseDateZ (formatISO y m d) = none := by
  have hlen : 5 ≤ (natToChars y.natAbs).length := by
    have := natToChars_length_ge 4 y.natAbs (by omega)
    omega
  rcases hhd : natToChars y.natAbs with _ | ⟨c, cs⟩
  · exact absurd hhd (natToChars_ne_nil _)
  have hcdig : isDigitChar c = true :=
    natToChars_all_digit y.natAbs c (by rw [hhd]; exact List.mem_cons_self c cs)
  have hshape : formatISO y m d = c :: (cs ++
      '-' :: (padStart2 (natToChars m) ++ '-' :: padStart2 (natToChars d))) := by
    rw [formatISO_eq]
    unfold intToChars
    rw [if_neg (by omega), hhd, List.cons_append]
  unfold jsParseDateZ
  rw [hshape]
  rw [if_neg (by simpa using isDigitChar_ne_plus hcdig)]
  rw [if_neg (by simpa using isDigitChar_ne_dash hcdig)]
  rw [← List.cons_append, ← hhd]
  have htd := List.take_append_drop 4 (natToChars y.natAbs)
  have htlen : ((natToChars y.natAbs).take 4).length = 4 := by
    rw [List.length_take]
    omega
  have htdig : ∀ x ∈ (natToChars y.natAbs).take 4, isDigitChar x = true :=
    fun x hx => natToChars_all_digit y.natAbs x (List.mem_of_mem_take hx)
  rw [← htd, List.append_assoc]
  rw [readDigits, readDigitsAux_append _ htdig 4 0 _ (by omega), htlen,
    Nat.sub_self]
  simp only [readDigitsAux]
  rcases hdrop : (natToChars y.natAbs).drop 4 with _ | ⟨c2, cs2⟩
  · have : ((natToChars y.natAbs).drop 4).length = 0 := by rw [hdrop]; rfl
    rw [List.length_drop] at this
    omega
  have hc2dig : isDigitChar c2 = true := by
    apply natToChars_all_digit y.natAbs c2
    have : c2 ∈ (natToChars y.natAbs).drop 4 := by
      rw [hdrop]
      exact List.mem_cons_self c2 cs2
    exact List.mem_of_mem_drop this
  unfold parseMDTail
  rw [if_neg (by simp), if_neg (by simpa using isDigitChar_ne_dash hc2dig)]

/-- Parsing a formatted date fails when the year prints a sign followed by
fewer than six digits. -/
lemma parse_formatISO_smallNeg {y : Int} (hy0 : -99999 ≤ y) (hy : y < 0)
    (m d : Nat) : jsParseDateZ (formatISO y m d) = none := by
  have hlen : (natToChars y.natAbs).length ≤ 5 := by
    apply natToChars_length_le 5 y.natAbs (by omega)
    have : y.natAbs ≤ 99999 := by omega
    omega
  have hshape : formatISO y m d = '-' :: (natToChars y.natAbs ++
      '-' :: (padStart2 (natToChars m) ++ '-' :: padStart2 (natToChars d))) := by
    rw [formatISO_eq]
    unfold intToChars
    rw [if_pos hy, List.cons_append]
  unfold jsParseDateZ
  rw [hshape]
  rw [if_neg (by simp), if_pos (by simp)]
  have hfail : readDigits 6 (natToChars y.natAbs ++
      '-' :: (padStart2 (natToChars m) ++ '-' :: padStart2 (natToChars d))) = none := by
    apply readDigits_fail (natToChars_all_digit _) (by omega)
    exact Or.inr ⟨'-', _, rfl, by decide⟩
  simp only [List.tail_cons, hfail]

/-- Parsing a formatted date with a six-digit negative year succeeds and
returns the original components. -/
lemma parse_formatISO_sixNeg {y : Int} (hy0 : -999999 ≤ y) (hy : y ≤ -100000)
    {m d : Nat} (hm1 : 1 ≤ m) (hm2 : m ≤ 12) (hd1 : 1 ≤ d)
    (hd2 : d ≤ daysInMonth y m) :
    jsParseDateZ (formatISO y m d) = some (y, m, d) := by
  have hlen : (natToChars y.natAbs).length = 6 := by
    have := natToChars_length_eq 5 y.natAbs (by omega) (by omega)
    simpa using this
  have hshape : formatISO y m d = '-' :: (natToChars y.natAbs ++
      '-' :: (padStart2 (natToChars m) ++ '-' :: padStart2 (natToChars d))) := by
    rw [formatISO_eq]
    unfold intToChars
    rw [if_pos (by omega), List.cons_append]
  unfold jsParseDateZ
  rw [hshape]
  rw [if_neg (by simp), if_pos (by simp)]
  simp only [List.tail_cons]
  simp only [readDigits_natToChars hlen]
  rw [if_neg (by omega)]
  have hyy : -(y.natAbs : Int) = y := by omega
  rw [hyy]
  unfold parseMDTail
  rw [if_neg (by simp), if_pos (by simp)]
  simp only [List.tail_cons]
  simp only [(padStart2_spec m hm1 (by omega)).2.2]
  rw [if_neg (by simp), if_pos (by simp)]
  simp only [List.tail_cons]
  have hD : readDigits 2 (padStart2 (natToChars d)) = some (d, []) := by
    have := (padStart2_spec d hd1 (by
      have := daysInMonth_le y m
      omega)).2.2 []
    simpa using this
  simp only [hD]
  rw [if_pos trivial]
  unfold checkMD
  rw [if_pos ⟨hm1, hm2, hd1, hd2⟩]

/-- The output of the reformatting branch is a fixed point of
`normalizeDateToISO`: four-digit years become canonical and pass the
segment-length check, six-digit negative years re-parse to the same
components, and every other year shape neither passes the check nor
re-parses, so it is returned unchanged. -/
lemma formatISO_fixed {y : Int} {m d : Nat} (hm1 : 1 ≤ m) (hm2 : m ≤ 12)
    (hd1 : 1 ≤ d) (hd2 : d ≤ daysInMonth y m)
    (hy1 : -999999 ≤ y) (hy2 : y ≤ 999999) :
    normalizeDateToISO (formatISO y m d) = formatISO y m d := by
  have hm99 : m ≤ 99 := by omega
  have hd99 : d ≤ 99 := le_trans hd2 (le_trans (daysInMonth_le y m) (by omega))
  by_cases hneg : y < 0
  · by_cases hbig : y ≤ -100000
    · have hp := parse_formatISO_sixNeg (by omega) hbig hm1 hm2 hd1 hd2
      have hsplit := split_formatISO_neg hneg hm1 hm99 hd1 hd99
      rw [normalize_parse_some (formatISO_ne_nil y m d)
        (Or.inr (by rw [hsplit]; rfl)) hp]
    · have hp := parse_formatISO_smallNeg (by omega) hneg m d
      have hsplit := split_formatISO_neg hneg hm1 hm99 hd1 hd99
      exact normalize_parse_none (formatISO_ne_nil y m d)
        (Or.inr (by rw [hsplit]; rfl)) hp
  · push_neg at hneg
    by_cases hsm : y ≤ 999
    · have hp := parse_formatISO_short hneg hsm m d
      have hsplit := split_formatISO_nonneg hneg hm1 hm99 hd1 hd99
      refine normalize_parse_none (formatISO_ne_nil y m d) (Or.inl ?_) hp
      rw [hsplit]
      have hl : (natToChars y.natAbs).length ≤ 3 :=
        natToChars_length_le 3 y.natAbs (by omega) (by omega)
      simp only [List.getD_cons_zero]
      omega
    · by_cases hmid : y ≤ 9999
      · have hsplit := split_formatISO_nonneg hneg hm1 hm99 hd1 hd99
        apply normalize_segments_passthrough
        · rw [hsplit]
          have hl := natToChars_length_eq 3 y.natAbs (by omega) (by omega)
          simpa using hl
        · rw [hsplit]
          simpa using (padStart2_spec m hm1 hm99).1
        · rw [hsplit]
          simpa using (padStart2_spec d hd1 hd99).1
      · have hp := parse_formatISO_long (by omega) hy2 m d
        have hsplit := split_formatISO_nonneg hneg hm1 hm99 hd1 hd99
        refine normalize_parse_none (formatISO_ne_nil y m d) (Or.inl ?_) hp
        rw [hsplit]
        have hl := natToChars_length_ge 4 y.natAbs (by omega)
        simp only [List.getD_cons_zero]
        omega

/-- C7: `normalizeDateToISO` is idempotent — a second application returns
the first application's output unchanged, across all three branches
(canonical input, reformatted parseable input, and non-parseable input
returned unchanged). -/
theorem normalizeDateToISO_idempotent (s : List Char) :
    normalizeDateToISO (normalizeDateToISO s) = normalizeDateToISO s := by
  rcases normalize_cases s with h | ⟨y, m, d, hp, hfmt⟩
  · simp only [h]
  · obtain ⟨hm1, hm2, hd1, hd2, hy1, hy2⟩ := jsParseDateZ_sound hp
    rw [hfmt]
    exact formatISO_fixed hm1 hm2 hd1 hd2 hy1 hy2
